import Mathlib

/-!
Shallow embedding of the face-recognition training and inference pipeline
(`Train_face/training.py`, `Train_face/face_utils.py`,
`face_recognition_utils.py`) and proofs about the claims of its design
document.

External computer-vision primitives (histogram equalization, resize,
Gaussian blur, Haar-cascade detection, perspective warp, mirror, pixel
mean) are modelled as an abstract interface `CV Img`: the design document
itself declares them external capabilities, and every claim is about how
the repository composes them, not about their pixel-level behaviour.
Randomness (`random.shuffle`, `random.choice`, `np.random.permutation`)
is modelled by explicit permutation / index-stream parameters. Images
loaded from disk are `Option Img` (`none` models a file `cv2.imread`
could not decode); a thrown exception in an external call is modelled by
an `Option` result.
-/

namespace FaceRec

/-- An axis-aligned face region `(x, y, w, h)` as returned by
`detectMultiScale`. -/
structure Rect where
  x : Nat
  y : Nat
  w : Nat
  h : Nat
deriving DecidableEq, Repr

/-- Abstract interface to the external computer-vision library (cv2).
Fields carry the parameters the repository passes at each call site, so
that "called with identical parameters" is checkable in the model. -/
structure CV (Img : Type) where
  equalizeHist : Img → Img
  resize : Img → Nat × Nat → Img
  gaussianBlur : Img → Nat × Nat → Nat → Img
  detectMultiScale : Img → ℚ → Nat → Nat × Nat → List Rect
  crop : Img → Rect → Img
  flip1 : Img → Img
  warpPerspective : Nat → Img → Option Img
  mean : Img → ℚ

/-- `FaceRecognizer.detect_faces` (Train_face/face_utils.py, lines 35-53)
restricted to single-channel input (the branch `gray = image.copy()`):
equalize the histogram, then run the cascade with `scaleFactor=1.1`,
`minNeighbors=3`, `minSize=(60, 60)`; returns the regions and the
equalized frame. -/
def detect_faces {Img : Type} (cv : CV Img) (image : Img) : List Rect × Img :=
  let gray := cv.equalizeHist image
  (cv.detectMultiScale gray (11 / 10 : ℚ) 3 (60, 60), gray)

/-- `FaceRecognizer.preprocess_face` (Train_face/face_utils.py, lines
55-66): resize to 100x100, equalize the histogram, apply a (3,3)
Gaussian blur with sigma 0. -/
def preprocess_face {Img : Type} (cv : CV Img) (face_roi : Img) : Img :=
  cv.gaussianBlur (cv.equalizeHist (cv.resize face_roi (100, 100))) (3, 3) 0

/-- The crop-and-normalize step shared by the two paths, as a function of
an already-computed detection result: crop the first region of `faces`
out of `gray` and preprocess it; `none` when no face was found. -/
def cropFirstAndPreprocess {Img : Type} (cv : CV Img) (faces : List Rect)
    (gray : Img) : Option Img :=
  match faces with
  | [] => none
  | r :: _ => some (preprocess_face cv (cv.crop gray r))

/-- The per-image preprocessing inlined in `train_face_model`
(Train_face/training.py, lines 186-211): equalize, detect with
`scaleFactor=1.1`, `minNeighbors=3`, `minSize=(60, 60)`, crop `faces[0]`
from the equalized frame, resize to 100x100, equalize again, (3,3)
Gaussian blur. -/
def trainPreprocessImage {Img : Type} (cv : CV Img) (image : Img) : Option Img :=
  let gray := cv.equalizeHist image
  let faces := cv.detectMultiScale gray (11 / 10 : ℚ) 3 (60, 60)
  match faces with
  | [] => none
  | r :: _ =>
    let face_roi := cv.crop gray r
    let face_roi := cv.resize face_roi (100, 100)
    let face_roi := cv.equalizeHist face_roi
    let face_roi := cv.gaussianBlur face_roi (3, 3) 0
    some face_roi

/-- The inference-side composition `detect_faces` then crop of the first
region then `preprocess_face`, exactly as `FaceRecognizer.recognize_face`
performs it (Train_face/face_utils.py, lines 74-88). -/
def inferPreprocessImage {Img : Type} (cv : CV Img) (image : Img) : Option Img :=
  let dg := detect_faces cv image
  cropFirstAndPreprocess cv dg.1 dg.2

/-- Python dictionary lookup `label_dict.get(label, None)` on an
association list with `Nat` keys. -/
def dictGet (m : List (Nat × String)) (k : Nat) : Option String :=
  List.lookup k m

/-- Python truthiness of an `Optional[str]`: `None` and the empty string
are falsy, every other string is truthy (this is the test
`and student_name` performs in `recognize_face`). -/
def truthyStr : Option String → Bool
  | none => false
  | some s => decide (s ≠ "")

/-- The raw-distance to confidence conversion at
Train_face/face_utils.py line 98 (`recognize_face`). -/
def confidence_percent_recognize (confidence : ℚ) : ℚ :=
  max 0 (100 - min confidence 100)

/-- The raw-distance to confidence conversion at
Train_face/training.py line 301 (`quick_test`). -/
def confidence_percent_quick_test (confidence : ℚ) : ℚ :=
  max 0 (100 - min confidence 100)

/-- The raw-distance to confidence conversion at
Train_face/training.py line 372 (`test_on_existing_images`). -/
def confidence_percent_existing_test (confidence : ℚ) : ℚ :=
  max 0 (100 - min confidence 100)

/-- The raw-distance to confidence conversion at
face_recognition_utils.py line 103 (`recognize_face_with_box`). -/
def confidence_percent_with_box (confidence : ℚ) : ℚ :=
  max 0 (100 - min confidence 100)

/-- The specification's scoring contract, written from the spec's words:
`score(rawDistance) = max(0, 100 - min(rawDistance, 100))`. -/
def spec_score (d : ℚ) : ℚ :=
  max 0 (100 - min d 100)

/-- The body of `FaceRecognizer.recognize_face` after face detection
(Train_face/face_utils.py, lines 76-114), as a function of the detection
result: no face gives `(None, 0)`; otherwise the first region is cropped
and preprocessed; a prediction failure (the `except` branch) gives
`(None, 0)`; otherwise the confidence is converted and the name returned
only when `confidence_percent > 40 and student_name` is truthy. -/
def recognize_face_core {Img : Type} (cv : CV Img)
    (label_encoder : List (Nat × String)) (predict : Img → Option (Nat × ℚ))
    (faces : List Rect) (gray : Img) : Option String × ℚ :=
  match faces with
  | [] => (none, 0)
  | r :: _ =>
    let face_roi := preprocess_face cv (cv.crop gray r)
    match predict face_roi with
    | none => (none, 0)
    | some lc =>
      let confidence_percent := confidence_percent_recognize lc.2
      let student_name := dictGet label_encoder lc.1
      if 40 < confidence_percent ∧ truthyStr student_name = true then
        (student_name, confidence_percent)
      else
        (none, confidence_percent)

/-- `FaceRecognizer.recognize_face` (Train_face/face_utils.py, lines
68-114). `load_ok` models whether the model and label-map files were
present and deserialized successfully (the lazy `load_model` call);
`predict = none` models `recognizer.predict` raising. -/
def recognize_face {Img : Type} (cv : CV Img) (load_ok : Bool)
    (label_encoder : List (Nat × String)) (predict : Img → Option (Nat × ℚ))
    (image : Img) : Option String × ℚ :=
  if load_ok = false then (none, 0)
  else recognize_face_core cv label_encoder predict
    (detect_faces cv image).1 (detect_faces cv image).2

/-- The per-region result loop of `recognize_face_with_box`
(face_recognition_utils.py, lines 94-112): every detected region is
cropped, preprocessed and predicted, the confidence converted, and the
name looked up with default `"Unknown"`. The `recognizer.predict` call
at line 100 is NOT wrapped in try/except, so a prediction failure
(`predict _ = none`) aborts the whole loop: the exception propagates,
modelled by the outer `none`. -/
def withBoxResults {Img : Type} (cv : CV Img)
    (label_encoder : List (Nat × String)) (predict : Img → Option (Nat × ℚ))
    (gray : Img) : List Rect → Option (List (String × ℚ))
  | [] => some []
  | r :: rest =>
    match predict (preprocess_face cv (cv.crop gray r)) with
    | none => none
    | some lc =>
      match withBoxResults cv label_encoder predict gray rest with
      | none => none
      | some results =>
        some (((dictGet label_encoder lc.1).getD "Unknown",
          confidence_percent_with_box lc.2) :: results)

/-- The per-region results of `recognize_face_with_box` on a run where
no prediction throws, as a plain list (the value `withBoxResults`
computes under a never-throwing classifier). -/
def withBoxResultList {Img : Type} (cv : CV Img)
    (label_encoder : List (Nat × String)) (predict2 : Img → Nat × ℚ)
    (gray : Img) (faces : List Rect) : List (String × ℚ) :=
  faces.map fun r =>
    let lc := predict2 (preprocess_face cv (cv.crop gray r))
    ((dictGet label_encoder lc.1).getD "Unknown",
      confidence_percent_with_box lc.2)

/-- `FaceRecognizer.recognize_face_with_box`
(face_recognition_utils.py, lines 78-148), dropping the drawing of boxes
on the display copy (pure presentation): model not loaded gives
`(None, 0)`; no detected face gives `(None, 0)`; otherwise all detected
regions are scored — an exception from the unguarded
`recognizer.predict` call propagates to the caller (result `none`) —
the results are stably sorted by confidence in descending order, and
the best result's name and confidence are returned. -/
def recognize_face_with_box {Img : Type} (cv : CV Img) (loaded : Bool)
    (label_encoder : List (Nat × String)) (predict : Img → Option (Nat × ℚ))
    (image : Img) : Option (Option String × ℚ) :=
  if loaded = false then some (none, 0)
  else
    let dg := detect_faces cv image
    match dg.1 with
    | [] => some (none, 0)
    | _ :: _ =>
      match withBoxResults cv label_encoder predict dg.2 dg.1 with
      | none => none
      | some results =>
        match results.mergeSort (fun a b => decide (b.2 ≤ a.2)) with
        | [] => some (none, 0)
        | best :: _ => some (some best.1, best.2)

/-- A concrete realization of the vision interface over `Img := Nat`,
used to exercise the model on explicit inputs: all normalization steps
are the identity, the detector reports the fixed region list `faces`,
and cropping a region returns its `x` coordinate so that different
regions yield distinguishable crops. -/
def cvDetect (faces : List Rect) : CV Nat where
  equalizeHist := id
  resize := fun i _ => i
  gaussianBlur := fun i _ _ => i
  detectMultiScale := fun _ _ _ _ => faces
  crop := fun _ r => r.x
  flip1 := id
  warpPerspective := fun _ _ => none
  mean := fun _ => 0

/-- A concrete classifier for `cvDetect`: the crop of the first region
(`0`) predicts label 0 at raw distance 80 (confidence 20), any other
crop predicts label 1 at raw distance 10 (confidence 90). -/
def exPredict : Nat → Nat × ℚ :=
  fun roi => if roi = 0 then (0, 80) else (1, 10)

/-- `random.choice(loaded_images)`: the choice stream supplies an
arbitrary index, reduced modulo the list length (the list is non-empty at
every call site, so the default `d` is never selected). -/
def pick {Img : Type} (loaded : List Img) (d : Img) (i : Nat) : Img :=
  loaded.getD (i % loaded.length) d

/-- The duplication loop of `generate_in_memory_training_data`
(Train_face/training.py, lines 50-52): append one randomly chosen
original per iteration until the quota is reached; `t` is the number of
missing images and `k` the position in the choice stream. -/
def dupList {Img : Type} (loaded : List Img) (d : Img) (choices : Nat → Nat) :
    Nat → Nat → List Img
  | _, 0 => []
  | k, t + 1 => pick loaded d (choices k) :: dupList loaded d choices (k + 1) t

/-- `generate_in_memory_training_data` (Train_face/training.py, lines
9-55). `image_files` is the directory's image-file list with each entry
the result of `cv2.imread` (`none` = unreadable); `shuffle` models
`random.shuffle`; `choices` models the `random.choice` stream. Note the
rich/poor branch tests the file count (`original_count`), not the loaded
count, exactly as the source does. -/
def generate_in_memory_training_data {Img : Type} (shuffle : List Img → List Img)
    (choices : Nat → Nat) (d : Img) (image_files : List (Option Img))
    (min_images : Nat) : List Img :=
  if image_files.isEmpty then []
  else
    let loaded_images := image_files.filterMap id
    if loaded_images.isEmpty then []
    else if min_images ≤ image_files.length then
      (shuffle loaded_images).take min_images
    else
      loaded_images ++
        dupList loaded_images d choices 0 (min_images - loaded_images.length)

/-- The perspective variants accepted by `apply_virtual_angles`
(Train_face/training.py, lines 89-104): of the four configurations only
the first two (`angle_variations[:2]`) are tried; a variant is kept when
the warp succeeds (no exception) and its mean intensity exceeds 20. -/
def acceptedVariants {Img : Type} (cv : CV Img) (face_roi : Img) : List Img :=
  ((List.range 4).take 2).filterMap fun i =>
    match cv.warpPerspective i face_roi with
    | some angled_face => if 20 < cv.mean angled_face then some angled_face else none
    | none => none

/-- `apply_virtual_angles` (Train_face/training.py, lines 57-111): the
original first, then the accepted perspective variants, then the
horizontal mirror of the original, truncated to 4. -/
def apply_virtual_angles {Img : Type} (cv : CV Img) (face_roi : Img) : List Img :=
  ((face_roi :: acceptedVariants cv face_roi) ++ [cv.flip1 face_roi]).take 4

/-- The per-student sample construction of `train_face_model`
(Train_face/training.py, lines 169-221): balance the student's directory
to 100 images in memory, then for each image run the inlined
preprocessing and, when a face is found, add every synthesized angle
variant as one training sample (an image with no detected face
contributes nothing). -/
def processStudent {Img : Type} (cv : CV Img) (shuffle : List Img → List Img)
    (choices : Nat → Nat) (d : Img) (imgs : List (Option Img)) : List Img :=
  (generate_in_memory_training_data shuffle choices d imgs 100).flatMap
    fun image =>
      match trainPreprocessImage cv image with
      | some face_roi => apply_virtual_angles cv face_roi
      | none => []

/-- The per-identity loop of `train_face_model` (Train_face/training.py,
lines 162-230): for each student folder, an entry mapping the current
label to the name is added to the label dictionary before any image
check, the samples and their labels are accumulated, and the label
counter is incremented unconditionally (also on the skip path). Returns
`(label_dict, faces_list, labels_list)`. -/
def trainLoop {Img : Type} (cv : CV Img) (shuffle : List Img → List Img)
    (choices : Nat → Nat) (d : Img) (listdir : String → List (Option Img)) :
    List String → Nat → List (Nat × String) × List Img × List Nat
  | [], _ => ([], [], [])
  | student_name :: rest, current_label =>
    let samples := processStudent cv shuffle choices d (listdir student_name)
    let acc := trainLoop cv shuffle choices d listdir rest (current_label + 1)
    ((current_label, student_name) :: acc.1,
      samples ++ acc.2.1,
      List.replicate samples.length current_label ++ acc.2.2)

/-- Outcome of a training run: the returned flag, the label dictionary,
the shuffled arrays handed to `recognizer.train`, and the files
persisted (in write order). -/
structure TrainResult (Img : Type) where
  success : Bool
  label_dict : List (Nat × String)
  faces_array : List Img
  labels_array : List Nat
  writes : List String

/-- `faces_array[indices]` for an index array `indices`
(np.ndarray fancy indexing); `np.random.permutation` supplies
`indices` as a permutation of `range(len(faces_array))`. -/
def applyPermutation {α : Type} (indices : List Nat) (d : α) (l : List α) : List α :=
  indices.map fun i => l.getD i d

/-- `train_face_model` (Train_face/training.py, lines 113-292):
enumerate the student folders in sorted order, run the per-identity
loop, fail (returning `False`, persisting nothing) when no students or
no samples were found, otherwise shuffle faces and labels with the same
index permutation, fit, and persist the model file and the label map
file. The external classifier fit and the self-test print-out carry no
data flow back into the result and are not modelled. -/
def train_face_model {Img : Type} (cv : CV Img) (shuffle : List Img → List Img)
    (choices : Nat → Nat) (d : Img) (listdir : String → List (Option Img))
    (folders : List String) (indices : List Nat) : TrainResult Img :=
  let student_folders := folders.mergeSort fun a b => decide (a ≤ b)
  if student_folders.isEmpty then ⟨false, [], [], [], []⟩
  else
    let acc := trainLoop cv shuffle choices d listdir student_folders 0
    if acc.2.1.isEmpty then ⟨false, acc.1, [], [], []⟩
    else
      ⟨true, acc.1, applyPermutation indices d acc.2.1,
        applyPermutation indices 0 acc.2.2,
        ["model/face_model.yml", "model/label_encoder.pkl"]⟩

/-! ### Theorems -/

/-- Claim C1: the preprocessing composition inlined in `train_face_model`
and the composition `detect_faces` followed by first-region crop and
`preprocess_face` used by the inference path agree on every input image,
for every realization of the external vision primitives: both equalize
the grayscale frame, detect with scaleFactor 1.1, minNeighbors 3, minSize
(60, 60), crop the first region, resize to 100x100, equalize again and
apply a (3,3) Gaussian blur. -/
theorem train_inference_preprocess_eq {Img : Type} (cv : CV Img) (image : Img) :
    trainPreprocessImage cv image = inferPreprocessImage cv image := by
  unfold trainPreprocessImage inferPreprocessImage detect_faces cropFirstAndPreprocess
  cases cv.detectMultiScale (cv.equalizeHist image) (11 / 10 : ℚ) 3 (60, 60) with
  | nil => rfl
  | cons r rest => rfl

/-- Claim C2: every use site computes `max(0, 100 - min(d, 100))`; the
score is antitone, maps 0 to 100, maps every `d >= 100` to 0, and for a
(non-negative) raw distance lies in `[0, 100]`. -/
theorem confidence_score_spec (d d1 d2 : ℚ) :
    confidence_percent_recognize d = spec_score d ∧
    confidence_percent_quick_test d = spec_score d ∧
    confidence_percent_existing_test d = spec_score d ∧
    confidence_percent_with_box d = spec_score d ∧
    (d1 ≤ d2 → spec_score d2 ≤ spec_score d1) ∧
    spec_score 0 = 100 ∧
    (100 ≤ d → spec_score d = 0) ∧
    0 ≤ spec_score d ∧
    (0 ≤ d → spec_score d ≤ 100) := by
  refine ⟨rfl, rfl, rfl, rfl, ?_, ?_, ?_, ?_, ?_⟩
  · intro h
    exact max_le_max le_rfl (sub_le_sub_left (min_le_min h le_rfl) 100)
  · norm_num [spec_score]
  · intro h
    rw [spec_score, min_eq_right h]
    norm_num
  · exact le_max_left 0 _
  · intro h
    apply max_le (by norm_num)
    have : (0 : ℚ) ≤ min d 100 := le_min h (by norm_num)
    linarith

/-- Witness for `confidence_score_spec` instantiated at the distances the
design document uses as scenarios (35 ↦ 65, 150 ↦ 0, 0 ↦ 100). -/
theorem confidence_score_spec_witness :
    (35 : ℚ) ≤ 150 ∧ spec_score 150 ≤ spec_score 35 ∧
    spec_score 0 = 100 ∧ (100 : ℚ) ≤ 150 ∧ spec_score 150 = 0 ∧
    (0 : ℚ) ≤ 35 ∧ spec_score 35 ≤ 100 := by
  have h := confidence_score_spec 150 35 150
  have h35 := confidence_score_spec 35 0 0
  exact ⟨by norm_num, h.2.2.2.2.1 (by norm_num), h.2.2.2.2.2.1,
    by norm_num, h.2.2.2.2.2.2.1 (by norm_num),
    by norm_num, h35.2.2.2.2.2.2.2.2 (by norm_num)⟩

/-- When the model is loaded, `recognize_face` is its post-detection body
applied to the detection result. -/
theorem recognize_face_true {Img : Type} (cv : CV Img)
    (enc : List (Nat × String)) (predict : Img → Option (Nat × ℚ)) (image : Img) :
    recognize_face cv true enc predict image =
      recognize_face_core cv enc predict
        (detect_faces cv image).1 (detect_faces cv image).2 := by
  simp [recognize_face]

/-- The stable descending sort performed by `recognize_face_with_box`
starts with an element of the input of maximal confidence. -/
theorem mergeSort_desc_head (l : List (String × ℚ)) (h : l ≠ []) :
    ∃ best rest, l.mergeSort (fun a b => decide (b.2 ≤ a.2)) = best :: rest ∧
      best ∈ l ∧ ∀ q ∈ l, q.2 ≤ best.2 := by
  have hsorted : (l.mergeSort (fun a b => decide (b.2 ≤ a.2))).Pairwise
      (fun a b => decide (b.2 ≤ a.2) = true) := by
    apply List.sorted_mergeSort
    · intro a b c hab hbc
      simp only [decide_eq_true_eq] at hab hbc ⊢
      exact le_trans hbc hab
    · intro a b
      rcases le_total b.2 a.2 with hle | hle <;> simp [hle]
  have hperm := List.mergeSort_perm l (fun a b => decide (b.2 ≤ a.2))
  cases hms : l.mergeSort (fun a b => decide (b.2 ≤ a.2)) with
  | nil =>
    exfalso
    apply h
    have := hperm.length_eq
    rw [hms] at this
    exact List.length_eq_zero.mp this.symm
  | cons best rest =>
    refine ⟨best, rest, rfl, ?_, ?_⟩
    · have : best ∈ l.mergeSort (fun a b => decide (b.2 ≤ a.2)) := by
        rw [hms]; exact List.mem_cons_self best rest
      exact List.mem_mergeSort.mp this
    · intro q hq
      have hq' : q ∈ best :: rest := by
        rw [← hms]; exact List.mem_mergeSort.mpr hq
      rcases List.mem_cons.mp hq' with hq0 | hq1
      · exact le_of_eq (by rw [hq0])
      · have := (List.pairwise_cons.mp (hms ▸ hsorted)).1 q hq1
        simpa using this

/-- Under a classifier that never throws, the region loop of
`recognize_face_with_box` completes and returns the per-region result
list. -/
theorem withBoxResults_total {Img : Type} (cv : CV Img)
    (enc : List (Nat × String)) (predict2 : Img → Nat × ℚ) (gray : Img) :
    ∀ faces : List Rect,
      withBoxResults cv enc (fun roi => some (predict2 roi)) gray faces =
        some (withBoxResultList cv enc predict2 gray faces) := by
  intro faces
  induction faces with
  | nil => rfl
  | cons r rest ih =>
    simp only [withBoxResults, ih, withBoxResultList, List.map_cons]

/-- The region loop of `recognize_face_with_box` raises (returns `none`)
exactly when the classifier throws on the crop of some detected
region. -/
theorem withBoxResults_none_iff {Img : Type} (cv : CV Img)
    (enc : List (Nat × String)) (predict : Img → Option (Nat × ℚ)) (gray : Img) :
    ∀ faces : List Rect,
      withBoxResults cv enc predict gray faces = none ↔
        ∃ r ∈ faces, predict (preprocess_face cv (cv.crop gray r)) = none := by
  intro faces
  induction faces with
  | nil => simp [withBoxResults]
  | cons r rest ih =>
    cases hp : predict (preprocess_face cv (cv.crop gray r)) with
    | none =>
      simp only [withBoxResults, hp]
      exact iff_of_true (by trivial) ⟨r, List.mem_cons_self r rest, hp⟩
    | some lc =>
      simp only [withBoxResults, hp]
      cases hw : withBoxResults cv enc predict gray rest with
      | none =>
        obtain ⟨r', hm', hp'⟩ := ih.mp hw
        exact iff_of_true (by trivial) ⟨r', List.mem_cons_of_mem r hm', hp'⟩
      | some results =>
        refine iff_of_false (by simp) ?_
        rintro ⟨r', hm', hp'⟩
        rcases List.mem_cons.mp hm' with h0 | h1
        · rw [h0] at hp'
          rw [hp'] at hp
          exact Option.noConfusion hp
        · have : withBoxResults cv enc predict gray rest = none :=
            ih.mpr ⟨r', h1, hp'⟩
          rw [this] at hw
          exact Option.noConfusion hw

/-- Counterexample for claim C3: `recognize_face_with_box` applies no
confidence threshold at all — at confidence 39 (below the live threshold
40) with a resolvable label it still returns the identity name — and in
`recognize_face` a label that resolves to the empty string is treated as
unresolved by Python truthiness. -/
theorem decision_threshold_counterexample :
    recognize_face_with_box (cvDetect [⟨0, 0, 60, 60⟩]) true [(0, "Alice")]
        (fun _ => some (0, 61)) 0 = some (some "Alice", 39) ∧
    ¬ ((40 : ℚ) < 39) ∧
    recognize_face (cvDetect [⟨0, 0, 60, 60⟩]) true [(0, "")]
        (fun _ => some (0, 50)) 0 = (none, 50) ∧
    dictGet [(0, "")] 0 = some "" ∧ (40 : ℚ) < 50 := by
  refine ⟨?_, by norm_num, ?_, rfl, by norm_num⟩
  · simp only [recognize_face_with_box, detect_faces, withBoxResults, cvDetect,
      dictGet, confidence_percent_with_box, List.mergeSort_singleton,
      Bool.true_eq_false, if_false, List.lookup]
    norm_num [min_def, max_def]
  · rw [recognize_face_true]
    simp only [recognize_face_core, detect_faces, cvDetect,
      confidence_percent_recognize, dictGet, truthyStr, List.lookup]
    norm_num [min_def, max_def, preprocess_face]

/-- Whenever the detector reports at least one region and no prediction
throws, `recognize_face_with_box` returns a (some) name, whatever the
confidence values are. -/
theorem withBox_some {Img : Type} (cv : CV Img) (enc : List (Nat × String))
    (predict2 : Img → Nat × ℚ) (img2 : Img) :
    (detect_faces cv img2).1 ≠ [] →
      ∃ name conf, recognize_face_with_box cv true enc
        (fun roi => some (predict2 roi)) img2 = some (some name, conf) := by
  intro hne
  cases hd2 : (detect_faces cv img2).1 with
  | nil => exact absurd hd2 hne
  | cons a as =>
    have hrl := withBoxResults_total cv enc predict2 (detect_faces cv img2).2 (a :: as)
    have hrne : withBoxResultList cv enc predict2 (detect_faces cv img2).2 (a :: as)
        ≠ [] := by
      simp [withBoxResultList]
    obtain ⟨best, rest2, hms, hmem, hmax⟩ := mergeSort_desc_head _ hrne
    refine ⟨best.1, best.2, ?_⟩
    simp only [recognize_face_with_box, Bool.true_eq_false, if_false]
    rw [hd2, hrl]
    dsimp only
    rw [hms]

/-- Claim C3 (amended): in `face_utils.FaceRecognizer.recognize_face` the
decision returns the mapped identity name iff the confidence exceeds the
live threshold 40 and the label resolves to a truthy (non-empty) name in
the label map, otherwise `(None, c)` with the confidence still surfaced;
`recognize_face_with_box` applies no threshold: whenever at least one
face is detected and no prediction throws it returns a (some) name
regardless of confidence. -/
theorem decision_policy {Img : Type} (cv : CV Img) (enc : List (Nat × String))
    (predict : Img → Option (Nat × ℚ)) (predict2 : Img → Nat × ℚ)
    (image img2 : Img) (r : Rect) (rest : List Rect) (label : Nat) (confidence : ℚ)
    (hdet : (detect_faces cv image).1 = r :: rest)
    (hpred : predict (preprocess_face cv (cv.crop (detect_faces cv image).2 r)) =
      some (label, confidence)) :
    (recognize_face cv true enc predict image).2 =
      confidence_percent_recognize confidence ∧
    (∀ name : String, (recognize_face cv true enc predict image).1 = some name ↔
      (40 < confidence_percent_recognize confidence ∧
        dictGet enc label = some name ∧ name ≠ "")) ∧
    ((detect_faces cv img2).1 ≠ [] →
      ∃ name conf, recognize_face_with_box cv true enc
        (fun roi => some (predict2 roi)) img2 = some (some name, conf)) := by
  rw [recognize_face_true, hdet]
  simp only [recognize_face_core, hpred]
  by_cases hcond : 40 < confidence_percent_recognize confidence ∧
      truthyStr (dictGet enc label) = true
  · rw [if_pos hcond]
    rcases hcond with ⟨h40, htruthy⟩
    cases hdg : dictGet enc label with
    | none => rw [hdg] at htruthy; simp [truthyStr] at htruthy
    | some s =>
      rw [hdg] at htruthy
      simp only [truthyStr, decide_eq_true_eq] at htruthy
      refine ⟨rfl, ?_, ?_⟩
      · intro name
        constructor
        · intro hname
          have hsn : s = name := by simpa using hname
          exact ⟨h40, by rw [hsn], by rw [← hsn]; exact htruthy⟩
        · rintro ⟨-, hsn, -⟩
          simpa using hsn
      · exact withBox_some cv enc predict2 img2
  · rw [if_neg hcond]
    refine ⟨rfl, ?_, withBox_some cv enc predict2 img2⟩
    intro name
    constructor
    · intro hname
      simp at hname
    · rintro ⟨h40, hdg, hne⟩
      exact absurd ⟨h40, by simp [truthyStr, hdg, hne]⟩ hcond

/-- Witness for `decision_policy`: raw distance 30 (confidence 70 > 40)
with label 0 resolving to "Alice" yields the identity name. -/
theorem decision_policy_witness :
    (detect_faces (cvDetect [⟨0, 0, 60, 60⟩]) 0).1 = [⟨0, 0, 60, 60⟩] ∧
    (recognize_face (cvDetect [⟨0, 0, 60, 60⟩]) true [(0, "Alice")]
      (fun _ => some (0, 30)) 0).1 = some "Alice" := by
  refine ⟨rfl, ?_⟩
  refine ((decision_policy (cvDetect [⟨0, 0, 60, 60⟩]) [(0, "Alice")]
    (fun _ => some (0, 30)) exPredict 0 0 ⟨0, 0, 60, 60⟩ [] 0 30
    rfl rfl).2.1 "Alice").mpr ⟨?_, rfl, by decide⟩
  norm_num [confidence_percent_recognize, min_def, max_def]

/-- Counterexample for claim C8: recognition does raise to the caller —
the `recognizer.predict` call inside `recognize_face_with_box` is not
guarded by try/except, so with the model loaded and a face detected, a
classifier exception on the crop propagates out of the function (result
`none`, no `(name, confidence)` pair reaches the caller), while the same
throwing classifier is absorbed into `(None, 0)` by
`face_utils.recognize_face`. -/
theorem exception_propagation_counterexample :
    recognize_face_with_box (cvDetect [⟨0, 0, 60, 60⟩]) true [(0, "Alice")]
      (fun _ => none) 0 = none ∧
    (detect_faces (cvDetect [⟨0, 0, 60, 60⟩]) 0).1 = [⟨0, 0, 60, 60⟩] ∧
    recognize_face (cvDetect [⟨0, 0, 60, 60⟩]) true [(0, "Alice")]
      (fun _ => none) 0 = (none, 0) := by
  exact ⟨rfl, rfl, rfl⟩

/-- Claim C8 (amended): `face_utils.recognize_face` absorbs failures — a
missing or unloadable model artifact yields `(None, 0)`, and a
classifier prediction that throws on the crop yields `(None, 0)` — and
`recognize_face_with_box` yields `(None, 0)` when the model is not
loaded or no face is detected; but the predict call of
`recognize_face_with_box` is unguarded: it raises to its caller exactly
when the classifier throws on the crop of some detected region. -/
theorem recognition_absorbs_failures {Img : Type} (cv : CV Img)
    (enc : List (Nat × String)) (predict : Img → Option (Nat × ℚ))
    (image : Img) :
    recognize_face cv false enc predict image = (none, 0) ∧
    (∀ r rest, (detect_faces cv image).1 = r :: rest →
      predict (preprocess_face cv (cv.crop (detect_faces cv image).2 r)) = none →
      recognize_face cv true enc predict image = (none, 0)) ∧
    recognize_face_with_box cv false enc predict image = some (none, 0) ∧
    ((detect_faces cv image).1 = [] →
      recognize_face_with_box cv true enc predict image = some (none, 0)) ∧
    (recognize_face_with_box cv true enc predict image = none ↔
      ∃ r ∈ (detect_faces cv image).1,
        predict (preprocess_face cv (cv.crop (detect_faces cv image).2 r))
          = none) := by
  refine ⟨rfl, ?_, rfl, ?_, ?_⟩
  · intro r rest hdet hpred
    rw [recognize_face_true, hdet]
    simp [recognize_face_core, hpred]
  · intro hd
    simp only [recognize_face_with_box, Bool.true_eq_false, if_false]
    rw [hd]
  · cases hd : (detect_faces cv image).1 with
    | nil =>
      simp only [recognize_face_with_box, Bool.true_eq_false, if_false]
      rw [hd]
      exact iff_of_false (by simp) (by rintro ⟨r, hm, -⟩; simp at hm)
    | cons a as =>
      simp only [recognize_face_with_box, Bool.true_eq_false, if_false]
      rw [hd]
      cases hw : withBoxResults cv enc predict (detect_faces cv image).2 (a :: as) with
      | none =>
        exact iff_of_true rfl
          ((withBoxResults_none_iff cv enc predict (detect_faces cv image).2
            (a :: as)).mp hw)
      | some results =>
        refine iff_of_false ?_ ?_
        · cases hms : results.mergeSort (fun a b => decide (b.2 ≤ a.2)) <;>
            simp [hms]
        · intro hex
          have : withBoxResults cv enc predict (detect_faces cv image).2 (a :: as)
              = none :=
            (withBoxResults_none_iff cv enc predict (detect_faces cv image).2
              (a :: as)).mpr hex
          rw [this] at hw
          exact Option.noConfusion hw

/-- Witness for `recognition_absorbs_failures`: a throwing classifier on
a detected face yields `(None, 0)` in `recognize_face` and raises out of
`recognize_face_with_box`. -/
theorem recognition_absorbs_failures_witness :
    (detect_faces (cvDetect [⟨0, 0, 60, 60⟩]) 0).1 = [⟨0, 0, 60, 60⟩] ∧
    recognize_face (cvDetect [⟨0, 0, 60, 60⟩]) true [] (fun _ => none) 0
      = (none, 0) ∧
    recognize_face_with_box (cvDetect [⟨0, 0, 60, 60⟩]) true [] (fun _ => none) 0
      = none := by
  refine ⟨rfl, ?_, ?_⟩
  · exact (recognition_absorbs_failures (cvDetect [⟨0, 0, 60, 60⟩]) []
      (fun _ => none) 0).2.1 ⟨0, 0, 60, 60⟩ [] rfl rfl
  · exact (recognition_absorbs_failures (cvDetect [⟨0, 0, 60, 60⟩]) []
      (fun _ => none) 0).2.2.2.2.mpr ⟨⟨0, 0, 60, 60⟩, by simp [detect_faces, cvDetect], rfl⟩

/-- Counterexample for claim C9: with two detected regions,
`recognize_face_with_box` does not ignore the second one — it scores
every region and returns the one with the highest confidence, so adding
a second region changes its output. -/
theorem first_region_counterexample :
    recognize_face_with_box (cvDetect [⟨0, 0, 60, 60⟩, ⟨1, 1, 60, 60⟩]) true
        [(0, "A"), (1, "B")] (fun roi => some (exPredict roi)) 0
      = some (some "B", 90) ∧
    recognize_face_with_box (cvDetect [⟨0, 0, 60, 60⟩]) true
        [(0, "A"), (1, "B")] (fun roi => some (exPredict roi)) 0
      = some (some "A", 20) ∧
    (some ((some "B" : Option String), (90 : ℚ)) ≠
      some ((some "A" : Option String), (20 : ℚ))) := by
  refine ⟨?_, ?_, by simp⟩
  · have hres : withBoxResultList (cvDetect [⟨0, 0, 60, 60⟩, ⟨1, 1, 60, 60⟩])
        [(0, "A"), (1, "B")] exPredict 0 [⟨0, 0, 60, 60⟩, ⟨1, 1, 60, 60⟩] =
        [("A", 20), ("B", 90)] := by
      simp only [withBoxResultList, cvDetect, exPredict, preprocess_face, dictGet,
        confidence_percent_with_box, List.map_cons, List.map_nil, List.lookup]
      norm_num [min_def, max_def]
      rfl
    obtain ⟨best, rest, hms, hmem, hmax⟩ :=
      mergeSort_desc_head [("A", (20 : ℚ)), ("B", 90)] (by simp)
    have hbest : best = ("B", (90 : ℚ)) := by
      rcases List.mem_cons.mp hmem with h | h
      · exfalso
        have h90 := hmax ("B", 90) (by simp)
        rw [h] at h90
        norm_num at h90
      · simpa using h
    have hms' : (withBoxResultList (cvDetect [⟨0, 0, 60, 60⟩, ⟨1, 1, 60, 60⟩])
        [(0, "A"), (1, "B")] exPredict 0
        [⟨0, 0, 60, 60⟩, ⟨1, 1, 60, 60⟩]).mergeSort (fun a b => decide (b.2 ≤ a.2)) =
        best :: rest := by rw [hres]; exact hms
    rw [show recognize_face_with_box (cvDetect [⟨0, 0, 60, 60⟩, ⟨1, 1, 60, 60⟩]) true
        [(0, "A"), (1, "B")] (fun roi => some (exPredict roi)) 0 =
        (match (withBoxResultList (cvDetect [⟨0, 0, 60, 60⟩, ⟨1, 1, 60, 60⟩])
          [(0, "A"), (1, "B")] exPredict 0
          [⟨0, 0, 60, 60⟩, ⟨1, 1, 60, 60⟩]).mergeSort (fun a b => decide (b.2 ≤ a.2)) with
        | [] => some ((none : Option String), (0 : ℚ))
        | best :: _ => some (some best.1, best.2)) from rfl]
    rw [hms', hbest]
  · simp only [recognize_face_with_box, detect_faces, withBoxResults, cvDetect,
      exPredict, preprocess_face, dictGet, confidence_percent_with_box,
      List.mergeSort_singleton, Bool.true_eq_false, if_false, List.lookup]
    norm_num [min_def, max_def]

/-- Claim C9 (amended): the training sample builder and
`face_utils.recognize_face` use only the first detected region — the
tail of the detection list never influences their result — while
`recognize_face_with_box`, on a run where no prediction throws, scores
every detected region and returns a result of maximal confidence among
them. -/
theorem first_region_policy {Img : Type} (cv : CV Img) (enc : List (Nat × String))
    (predict : Img → Option (Nat × ℚ)) (predict2 : Img → Nat × ℚ)
    (image img2 gray : Img) (r : Rect) (rest rest' : List Rect)
    (hdet : (detect_faces cv image).1 = r :: rest) :
    trainPreprocessImage cv image =
      some (preprocess_face cv (cv.crop (detect_faces cv image).2 r)) ∧
    cropFirstAndPreprocess cv (r :: rest) gray =
      cropFirstAndPreprocess cv (r :: rest') gray ∧
    recognize_face_core cv enc predict (r :: rest) gray =
      recognize_face_core cv enc predict (r :: rest') gray ∧
    ((detect_faces cv img2).1 ≠ [] →
      ∃ p ∈ withBoxResultList cv enc predict2 (detect_faces cv img2).2
          (detect_faces cv img2).1,
        recognize_face_with_box cv true enc (fun roi => some (predict2 roi)) img2
          = some (some p.1, p.2) ∧
        ∀ q ∈ withBoxResultList cv enc predict2 (detect_faces cv img2).2
            (detect_faces cv img2).1, q.2 ≤ p.2) := by
  simp only [detect_faces] at hdet
  refine ⟨?_, rfl, rfl, ?_⟩
  · simp only [trainPreprocessImage, hdet, preprocess_face, detect_faces]
  · intro hne
    cases hd2 : (detect_faces cv img2).1 with
    | nil => exact absurd hd2 hne
    | cons a as =>
      have hrl := withBoxResults_total cv enc predict2 (detect_faces cv img2).2 (a :: as)
      have hrne : withBoxResultList cv enc predict2 (detect_faces cv img2).2 (a :: as)
          ≠ [] := by
        simp [withBoxResultList]
      obtain ⟨best, rest2, hms, hmem, hmax⟩ := mergeSort_desc_head _ hrne
      refine ⟨best, hmem, ?_, hmax⟩
      simp only [recognize_face_with_box, Bool.true_eq_false, if_false]
      rw [hd2, hrl]
      dsimp only
      rw [hms]

/-- Witness for `first_region_policy`: with two reported regions the
training-path preprocessing output is the crop of the first one. -/
theorem first_region_policy_witness :
    (detect_faces (cvDetect [⟨0, 0, 60, 60⟩, ⟨1, 1, 60, 60⟩]) 0).1 =
      [⟨0, 0, 60, 60⟩, ⟨1, 1, 60, 60⟩] ∧
    trainPreprocessImage (cvDetect [⟨0, 0, 60, 60⟩, ⟨1, 1, 60, 60⟩]) 0 = some 0 := by
  refine ⟨rfl, ?_⟩
  exact (first_region_policy (cvDetect [⟨0, 0, 60, 60⟩, ⟨1, 1, 60, 60⟩]) []
    (fun _ => none) exPredict 0 0 0 ⟨0, 0, 60, 60⟩ [⟨1, 1, 60, 60⟩] [] rfl).1

/-- `random.choice` on a non-empty list returns an element of it. -/
theorem pick_mem {Img : Type} (loaded : List Img) (d : Img) (i : Nat)
    (h : loaded ≠ []) : pick loaded d i ∈ loaded := by
  have hpos : 0 < loaded.length := List.length_pos.mpr h
  have hlt : i % loaded.length < loaded.length := Nat.mod_lt _ hpos
  rw [pick, List.getD_eq_getElem?_getD, List.getElem?_eq_getElem hlt]
  exact List.getElem_mem hlt

/-- The duplication loop appends exactly `t` images. -/
theorem dupList_length {Img : Type} (loaded : List Img) (d : Img)
    (choices : Nat → Nat) : ∀ k t, (dupList loaded d choices k t).length = t := by
  intro k t
  induction t generalizing k with
  | zero => rfl
  | succ n ih => simp [dupList, ih]

/-- Every image appended by the duplication loop is one of the loaded
originals. -/
theorem dupList_mem {Img : Type} (loaded : List Img) (d : Img)
    (choices : Nat → Nat) (h : loaded ≠ []) :
    ∀ k t, ∀ x ∈ dupList loaded d choices k t, x ∈ loaded := by
  intro k t
  induction t generalizing k with
  | zero => intro x hx; simp [dupList] at hx
  | succ n ih =>
    intro x hx
    rcases List.mem_cons.mp hx with hx0 | hx1
    · rw [hx0]; exact pick_mem loaded d _ h
    · exact ih _ x hx1

/-- When every file loads, `filterMap id` keeps all of them. -/
theorem filterMap_id_length_all_some {Img : Type} :
    ∀ l : List (Option Img), (∀ o ∈ l, Option.isSome o = true) →
      (l.filterMap id).length = l.length := by
  intro l h
  induction l with
  | nil => rfl
  | cons o t ih =>
    cases o with
    | none => exact absurd (h none (List.mem_cons_self _ _)) (by simp)
    | some a =>
      have := ih fun o ho => h o (List.mem_cons_of_mem _ ho)
      simp [List.filterMap_cons, this]

/-- Claim C4: on a directory whose image files all load, the balancer
returns exactly the quota (100): a truncated shuffle of the originals
when there are at least 100 files, otherwise all originals followed by
randomly chosen duplicates drawn from the originals; and on an empty
directory it returns the empty sequence. -/
theorem balancer_quota {Img : Type} (shuffle : List Img → List Img)
    (choices : Nat → Nat) (d : Img) (image_files : List (Option Img))
    (hperm : ∀ l : List Img, (shuffle l).Perm l)
    (hload : ∀ o ∈ image_files, Option.isSome o = true)
    (hne : image_files ≠ []) :
    (generate_in_memory_training_data shuffle choices d image_files 100).length = 100 ∧
    (100 ≤ image_files.length →
      generate_in_memory_training_data shuffle choices d image_files 100 =
        (shuffle (image_files.filterMap id)).take 100) ∧
    (image_files.length < 100 →
      generate_in_memory_training_data shuffle choices d image_files 100 =
        image_files.filterMap id ++
          dupList (image_files.filterMap id) d choices 0
            (100 - (image_files.filterMap id).length) ∧
      ∀ x ∈ dupList (image_files.filterMap id) d choices 0
          (100 - (image_files.filterMap id).length),
        x ∈ image_files.filterMap id) ∧
    generate_in_memory_training_data shuffle choices d ([] : List (Option Img)) 100
      = [] := by
  have hflen := filterMap_id_length_all_some image_files hload
  have hfne : image_files.filterMap id ≠ [] := by
    intro h0
    rw [h0] at hflen
    exact hne (List.length_eq_zero.mp hflen.symm)
  have h1 : image_files.isEmpty = false := by
    cases image_files with
    | nil => exact absurd rfl hne
    | cons a t => rfl
  have h2 : (image_files.filterMap id).isEmpty = false := by
    cases hfm : image_files.filterMap id with
    | nil => exact absurd hfm hfne
    | cons a t => rfl
  by_cases hq : 100 ≤ image_files.length
  · have hbranch : generate_in_memory_training_data shuffle choices d image_files 100 =
        (shuffle (image_files.filterMap id)).take 100 := by
      rw [generate_in_memory_training_data]
      simp [h1, h2, hq]
    refine ⟨?_, fun _ => hbranch, fun hlt => absurd hq (by omega), rfl⟩
    rw [hbranch, List.length_take, (hperm _).length_eq, hflen]
    omega
  · have hbranch : generate_in_memory_training_data shuffle choices d image_files 100 =
        image_files.filterMap id ++
          dupList (image_files.filterMap id) d choices 0
            (100 - (image_files.filterMap id).length) := by
      rw [generate_in_memory_training_data]
      simp [h1, h2, hq]
    refine ⟨?_, fun hge => absurd hge hq, fun _ =>
      ⟨hbranch, dupList_mem _ d choices hfne 0 _⟩, rfl⟩
    rw [hbranch, List.length_append, dupList_length]
    omega

/-- Witness for `balancer_quota`: one loadable image yields a balanced
set of exactly 100 images. -/
theorem balancer_quota_witness :
    (∀ l : List Nat, ((fun x => x) l : List Nat).Perm l) ∧
    (∀ o ∈ [some (5 : Nat)], Option.isSome o = true) ∧
    ([some (5 : Nat)] : List (Option Nat)) ≠ [] ∧
    (generate_in_memory_training_data (fun x => x) (fun k => k) 0
      [some (5 : Nat)] 100).length = 100 := by
  refine ⟨fun l => List.Perm.refl l, by decide, by decide, ?_⟩
  exact (balancer_quota (fun x => x) (fun k => k) 0 [some 5]
    (fun l => List.Perm.refl l) (by decide) (by decide)).1

/-- Counterexample for claim C4: a directory with 100 image files of
which only one decodes. The rich branch is taken because the *file*
count reaches the quota, but only the *loaded* images are shuffled and
truncated, so the balancer returns 1 image instead of 100 even though
the directory contains an original image. -/
theorem balancer_quota_counterexample :
    (some (5 : Nat) :: List.replicate 99 (none : Option Nat)) ≠ [] ∧
    (some (5 : Nat)) ∈ (some (5 : Nat) :: List.replicate 99 (none : Option Nat)) ∧
    (generate_in_memory_training_data (fun x => x) (fun k => k) 0
      (some (5 : Nat) :: List.replicate 99 (none : Option Nat)) 100).length = 1 ∧
    (1 : Nat) ≠ 100 := by
  refine ⟨by simp, by simp, ?_, by decide⟩
  rfl

/-- At most two perspective variants are ever accepted. -/
theorem acceptedVariants_length_le {Img : Type} (cv : CV Img) (face_roi : Img) :
    (acceptedVariants cv face_roi).length ≤ 2 := by
  have h := List.length_filterMap_le
    (fun i => match cv.warpPerspective i face_roi with
      | some angled_face => if 20 < cv.mean angled_face then some angled_face else none
      | none => none)
    ((List.range 4).take 2)
  simpa [acceptedVariants] using h

/-- Claim C5: the angle synthesizer returns the original first, then the
accepted perspective variants, then the horizontal mirror last; it
returns between 2 and 4 images; an accepted variant is exactly a
successful warp of one of the first two corner configurations whose mean
intensity exceeds the brightness floor 20. -/
theorem synthesize_bounds {Img : Type} (cv : CV Img) (face_roi : Img) :
    apply_virtual_angles cv face_roi =
      (face_roi :: acceptedVariants cv face_roi) ++ [cv.flip1 face_roi] ∧
    2 ≤ (apply_virtual_angles cv face_roi).length ∧
    (apply_virtual_angles cv face_roi).length ≤ 4 ∧
    (apply_virtual_angles cv face_roi).head? = some face_roi ∧
    (apply_virtual_angles cv face_roi).getLast? = some (cv.flip1 face_roi) ∧
    (∀ x ∈ acceptedVariants cv face_roi, 20 < cv.mean x ∧
      ∃ i, i < 2 ∧ cv.warpPerspective i face_roi = some x) ∧
    (∀ i, i < 2 → ∀ a, cv.warpPerspective i face_roi = some a →
      20 < cv.mean a → a ∈ acceptedVariants cv face_roi) := by
  have hlen : ((face_roi :: acceptedVariants cv face_roi) ++ [cv.flip1 face_roi]).length =
      (acceptedVariants cv face_roi).length + 2 := by
    simp
  have hfull : apply_virtual_angles cv face_roi =
      (face_roi :: acceptedVariants cv face_roi) ++ [cv.flip1 face_roi] := by
    rw [apply_virtual_angles]
    exact List.take_of_length_le (by rw [hlen]; have := acceptedVariants_length_le cv face_roi; omega)
  refine ⟨hfull, ?_, ?_, ?_, ?_, ?_, ?_⟩
  · rw [hfull, hlen]; omega
  · rw [hfull, hlen]; have := acceptedVariants_length_le cv face_roi; omega
  · rw [hfull]; rfl
  · rw [hfull]
    exact List.getLast?_concat _
  · intro x hx
    rw [acceptedVariants] at hx
    obtain ⟨i, hi, hfx⟩ := List.mem_filterMap.mp hx
    cases hw : cv.warpPerspective i face_roi with
    | none => rw [hw] at hfx; simp at hfx
    | some a =>
      rw [hw] at hfx
      dsimp only at hfx
      by_cases hm : 20 < cv.mean a
      · rw [if_pos hm] at hfx
        cases hfx
        refine ⟨hm, i, ?_, hw⟩
        rw [show (List.range 4).take 2 = [0, 1] from rfl] at hi
        have : i = 0 ∨ i = 1 := by simpa using hi
        omega
      · rw [if_neg hm] at hfx; exact absurd hfx (by simp)
  · intro i hi a hw hm
    rw [acceptedVariants]
    apply List.mem_filterMap.mpr
    refine ⟨i, ?_, ?_⟩
    · have : (List.range 4).take 2 = [0, 1] := rfl
      rw [this]
      interval_cases i <;> simp
    · rw [hw]
      dsimp only
      rw [if_pos hm]

/-- Witness for `synthesize_bounds`: with both warps rejected the
synthesizer returns exactly the original and its mirror. -/
theorem synthesize_bounds_witness :
    apply_virtual_angles (cvDetect []) 7 =
      (7 :: acceptedVariants (cvDetect []) 7) ++ [(cvDetect []).flip1 7] ∧
    2 ≤ (apply_virtual_angles (cvDetect []) 7).length ∧
    (apply_virtual_angles (cvDetect []) 7).length ≤ 4 := by
  have h := synthesize_bounds (cvDetect []) 7
  exact ⟨h.1, h.2.1, h.2.2.1⟩

/-- The label dictionary built by the per-identity loop enumerates the
students positionally from the starting label, independently of how many
images each student has. -/
theorem trainLoop_dict {Img : Type} (cv : CV Img) (shuffle : List Img → List Img)
    (choices : Nat → Nat) (d : Img) (listdir : String → List (Option Img)) :
    ∀ (students : List String) (lbl : Nat),
      (trainLoop cv shuffle choices d listdir students lbl).1 =
        List.enumFrom lbl students := by
  intro students
  induction students with
  | nil => intro lbl; rfl
  | cons s rest ih => intro lbl; simp [trainLoop, ih, List.enumFrom_cons]

/-- The loop accumulates one label per accumulated face. -/
theorem trainLoop_labels_length {Img : Type} (cv : CV Img)
    (shuffle : List Img → List Img) (choices : Nat → Nat) (d : Img)
    (listdir : String → List (Option Img)) :
    ∀ (students : List String) (lbl : Nat),
      (trainLoop cv shuffle choices d listdir students lbl).2.2.length =
        (trainLoop cv shuffle choices d listdir students lbl).2.1.length := by
  intro students
  induction students with
  | nil => intro lbl; rfl
  | cons s rest ih => intro lbl; simp [trainLoop, ih]

/-- The label dictionary of a training run is the positional enumeration
of the sorted student folders (empty when there are no folders). -/
theorem train_label_dict {Img : Type} (cv : CV Img) (shuffle : List Img → List Img)
    (choices : Nat → Nat) (d : Img) (listdir : String → List (Option Img))
    (folders : List String) (indices : List Nat) :
    (train_face_model cv shuffle choices d listdir folders indices).label_dict =
      if (folders.mergeSort fun a b => decide (a ≤ b)).isEmpty then []
      else List.enumFrom 0 (folders.mergeSort fun a b => decide (a ≤ b)) := by
  cases hms : folders.mergeSort fun a b => decide (a ≤ b) with
  | nil => rw [train_face_model, hms]; rfl
  | cons s rest =>
    rw [train_face_model, hms]
    simp only [List.isEmpty_cons, Bool.false_eq_true, if_false]
    split <;> simp [trainLoop_dict]

/-- Claim C6: labels are assigned positionally over the
lexicographically sorted identity folders — the identity at sorted
position `i` gets label `i` and an entry in the label map — even for
identities with zero usable images (the dictionary does not depend on
the directory contents at all), and the persisted label map is a
bijection from `0..K-1` onto the `K` folder names in sorted order. -/
theorem label_map_positional {Img : Type} (cv : CV Img)
    (shuffle : List Img → List Img) (choices : Nat → Nat) (d : Img)
    (listdir listdir' : String → List (Option Img)) (folders : List String)
    (indices : List Nat) (hnd : folders.Nodup) (hne : folders ≠ []) :
    (train_face_model cv shuffle choices d listdir folders indices).label_dict =
      List.enumFrom 0 (folders.mergeSort fun a b => decide (a ≤ b)) ∧
    (train_face_model cv shuffle choices d listdir folders indices).label_dict.length =
      folders.length ∧
    ((train_face_model cv shuffle choices d listdir folders indices).label_dict.map
      Prod.fst) = List.range folders.length ∧
    ((train_face_model cv shuffle choices d listdir folders indices).label_dict.map
      Prod.snd) = (folders.mergeSort fun a b => decide (a ≤ b)) ∧
    (∀ i, i < folders.length →
      (train_face_model cv shuffle choices d listdir folders indices).label_dict.getD
          i (0, "") =
        (i, (folders.mergeSort fun a b => decide (a ≤ b)).getD i "")) ∧
    ((train_face_model cv shuffle choices d listdir folders indices).label_dict.map
      Prod.snd).Nodup ∧
    (train_face_model cv shuffle choices d listdir folders indices).label_dict =
      (train_face_model cv shuffle choices d listdir' folders indices).label_dict := by
  have hp := List.mergeSort_perm folders (fun a b => decide (a ≤ b))
  have hml : (folders.mergeSort fun a b => decide (a ≤ b)).length = folders.length :=
    hp.length_eq
  have hse : (folders.mergeSort fun a b => decide (a ≤ b)).isEmpty = false := by
    cases hms : folders.mergeSort fun a b => decide (a ≤ b) with
    | nil =>
      exfalso
      apply hne
      rw [hms] at hml
      exact List.length_eq_zero.mp hml.symm
    | cons a t => rfl
  have hdict := train_label_dict cv shuffle choices d listdir folders indices
  rw [hse] at hdict
  simp only [Bool.false_eq_true, if_false] at hdict
  refine ⟨hdict, ?_, ?_, ?_, ?_, ?_, ?_⟩
  · rw [hdict, List.enumFrom_length, hml]
  · rw [hdict, List.enumFrom_map_fst, hml, List.range_eq_range']
  · rw [hdict, List.enumFrom_map_snd]
  · intro i hi
    rw [hdict]
    have hi' : i < (folders.mergeSort fun a b => decide (a ≤ b)).length := by
      rw [hml]; exact hi
    rw [List.getD_eq_getElem?_getD, List.getElem?_enumFrom,
      List.getElem?_eq_getElem hi', List.getD_eq_getElem?_getD,
      List.getElem?_eq_getElem hi']
    simp
  · rw [hdict, List.enumFrom_map_snd]
    exact hp.nodup_iff.mpr hnd
  · rw [train_label_dict cv shuffle choices d listdir folders indices,
      train_label_dict cv shuffle choices d listdir' folders indices]

/-- Witness for `label_map_positional`: two folders in reverse
alphabetical order receive labels 0 and 1 in sorted order, with an empty
directory listing. -/
theorem label_map_positional_witness :
    (["b", "a"] : List String).Nodup ∧ (["b", "a"] : List String) ≠ [] ∧
    (train_face_model (cvDetect []) (fun x => x) (fun k => k) 0 (fun _ => [])
      ["b", "a"] []).label_dict =
      List.enumFrom 0 ((["b", "a"] : List String).mergeSort fun a b => decide (a ≤ b)) := by
  refine ⟨by decide, by decide, ?_⟩
  exact (label_map_positional (cvDetect []) (fun x => x) (fun k => k) 0
    (fun _ => []) (fun _ => []) ["b", "a"] [] (by decide) (by decide)).1

/-- Claim C7: when the per-identity loop accumulated zero samples,
`train_face_model` reports failure and persists neither the model file
nor the label-map file. -/
theorem train_fails_empty {Img : Type} (cv : CV Img)
    (shuffle : List Img → List Img) (choices : Nat → Nat) (d : Img)
    (listdir : String → List (Option Img)) (folders : List String)
    (indices : List Nat)
    (hsamples : (trainLoop cv shuffle choices d listdir
      (folders.mergeSort fun a b => decide (a ≤ b)) 0).2.1 = []) :
    (train_face_model cv shuffle choices d listdir folders indices).success = false ∧
    (train_face_model cv shuffle choices d listdir folders indices).writes = [] := by
  cases hms : folders.mergeSort fun a b => decide (a ≤ b) with
  | nil => rw [train_face_model, hms]; exact ⟨rfl, rfl⟩
  | cons s rest =>
    rw [hms] at hsamples
    rw [train_face_model, hms]
    simp only [List.isEmpty_cons, Bool.false_eq_true, if_false]
    rw [hsamples]
    exact ⟨rfl, rfl⟩

/-- Witness for `train_fails_empty`: one student whose directory holds
no images yields zero samples, a `False` result and no writes. -/
theorem train_fails_empty_witness :
    (trainLoop (cvDetect []) (fun x => x) (fun k => k) 0 (fun _ => [])
      ((["a"] : List String).mergeSort fun a b => decide (a ≤ b)) 0).2.1 = [] ∧
    (train_face_model (cvDetect []) (fun x => x) (fun k => k) 0 (fun _ => [])
      ["a"] []).success = false ∧
    (train_face_model (cvDetect []) (fun x => x) (fun k => k) 0 (fun _ => [])
      ["a"] []).writes = [] := by
  have hs : (trainLoop (cvDetect []) (fun x => x) (fun k => k) 0 (fun _ => [])
      ((["a"] : List String).mergeSort fun a b => decide (a ≤ b)) 0).2.1 = [] := by
    rw [List.mergeSort_singleton]
    rfl
  have h := train_fails_empty (cvDetect []) (fun x => x) (fun k => k) 0
    (fun _ => []) ["a"] [] hs
  exact ⟨hs, h.1, h.2⟩

/-- Applying the same index list to two lists and zipping equals mapping
the index list over the zipped selections. -/
theorem range_map_getD_zip {α β : Type} (df : α) (dl : β) :
    ∀ (fs : List α) (ls : List β), ls.length = fs.length →
      (List.range fs.length).map (fun i => (fs.getD i df, ls.getD i dl)) =
        fs.zip ls := by
  intro fs
  induction fs with
  | nil => intro ls h; simp
  | cons a fs ih =>
    intro ls h
    cases ls with
    | nil => simp at h
    | cons b ls =>
      rw [List.length_cons, List.range_succ_eq_map, List.map_cons, List.map_map]
      have hcongr : ∀ i ∈ List.range fs.length,
          ((fun i => ((a :: fs).getD i df, (b :: ls).getD i dl)) ∘ Nat.succ) i =
            (fun i => (fs.getD i df, ls.getD i dl)) i := by
        intro i _
        simp
      rw [List.map_congr_left hcongr, ih ls (by simpa using h)]
      simp

/-- Claim C10: the global pre-fit shuffle applies one and the same index
permutation to the face array and the label array, so the multiset of
(face, label) pairs handed to the classifier equals the multiset of
accumulated training samples. -/
theorem global_shuffle_pairs {Img : Type} (cv : CV Img)
    (shuffle : List Img → List Img) (choices : Nat → Nat) (d : Img)
    (listdir : String → List (Option Img)) (folders : List String)
    (indices : List Nat)
    (hidx : indices.Perm (List.range (trainLoop cv shuffle choices d listdir
      (folders.mergeSort fun a b => decide (a ≤ b)) 0).2.1.length))
    (hne : (folders.mergeSort fun a b => decide (a ≤ b)).isEmpty = false)
    (hsne : (trainLoop cv shuffle choices d listdir
      (folders.mergeSort fun a b => decide (a ≤ b)) 0).2.1.isEmpty = false) :
    ((train_face_model cv shuffle choices d listdir folders indices).faces_array.zip
      (train_face_model cv shuffle choices d listdir folders indices).labels_array).Perm
      ((trainLoop cv shuffle choices d listdir
        (folders.mergeSort fun a b => decide (a ≤ b)) 0).2.1.zip
       (trainLoop cv shuffle choices d listdir
        (folders.mergeSort fun a b => decide (a ≤ b)) 0).2.2) := by
  cases hms : folders.mergeSort fun a b => decide (a ≤ b) with
  | nil => rw [hms] at hne; exact absurd hne (by simp)
  | cons s rest =>
    rw [hms] at hidx hsne
    have harr : train_face_model cv shuffle choices d listdir folders indices =
        ⟨true, (trainLoop cv shuffle choices d listdir (s :: rest) 0).1,
          applyPermutation indices d
            (trainLoop cv shuffle choices d listdir (s :: rest) 0).2.1,
          applyPermutation indices 0
            (trainLoop cv shuffle choices d listdir (s :: rest) 0).2.2,
          ["model/face_model.yml", "model/label_encoder.pkl"]⟩ := by
      rw [train_face_model, hms]
      simp only [List.isEmpty_cons, Bool.false_eq_true, if_false]
      rw [if_neg]
      rw [hsne]
      simp
    rw [harr]
    dsimp only
    rw [applyPermutation, applyPermutation, List.zip_map',
      ← range_map_getD_zip d 0 _ _
        (trainLoop_labels_length cv shuffle choices d listdir (s :: rest) 0)]
    exact hidx.map _

/-- Witness for `global_shuffle_pairs`: one student with one loadable
image yields 200 samples (100 balanced images, each contributing the
original and its mirror), and shuffling faces and labels with the
identity permutation of `range 200` preserves the pair multiset. -/
theorem global_shuffle_pairs_witness :
    (List.range 200).Perm (List.range (trainLoop (cvDetect [⟨0, 0, 60, 60⟩])
      (fun x => x) (fun k => k) 0 (fun _ => [some (7 : Nat)])
      ((["a"] : List String).mergeSort fun a b => decide (a ≤ b)) 0).2.1.length) ∧
    ((["a"] : List String).mergeSort fun a b => decide (a ≤ b)).isEmpty = false ∧
    (trainLoop (cvDetect [⟨0, 0, 60, 60⟩]) (fun x => x) (fun k => k) 0
      (fun _ => [some (7 : Nat)])
      ((["a"] : List String).mergeSort fun a b => decide (a ≤ b)) 0).2.1.isEmpty
      = false ∧
    ((train_face_model (cvDetect [⟨0, 0, 60, 60⟩]) (fun x => x) (fun k => k) 0
        (fun _ => [some (7 : Nat)]) ["a"] (List.range 200)).faces_array.zip
      (train_face_model (cvDetect [⟨0, 0, 60, 60⟩]) (fun x => x) (fun k => k) 0
        (fun _ => [some (7 : Nat)]) ["a"] (List.range 200)).labels_array).Perm
      ((trainLoop (cvDetect [⟨0, 0, 60, 60⟩]) (fun x => x) (fun k => k) 0
        (fun _ => [some (7 : Nat)])
        ((["a"] : List String).mergeSort fun a b => decide (a ≤ b)) 0).2.1.zip
       (trainLoop (cvDetect [⟨0, 0, 60, 60⟩]) (fun x => x) (fun k => k) 0
        (fun _ => [some (7 : Nat)])
        ((["a"] : List String).mergeSort fun a b => decide (a ≤ b)) 0).2.2) := by
  have hidx : (List.range 200).Perm (List.range (trainLoop (cvDetect [⟨0, 0, 60, 60⟩])
      (fun x => x) (fun k => k) 0 (fun _ => [some (7 : Nat)])
      ((["a"] : List String).mergeSort fun a b => decide (a ≤ b)) 0).2.1.length) := by
    rw [List.mergeSort_singleton]
    exact List.Perm.refl _
  have hne : ((["a"] : List String).mergeSort fun a b => decide (a ≤ b)).isEmpty
      = false := by
    rw [List.mergeSort_singleton]
    rfl
  have hsne : (trainLoop (cvDetect [⟨0, 0, 60, 60⟩]) (fun x => x) (fun k => k) 0
      (fun _ => [some (7 : Nat)])
      ((["a"] : List String).mergeSort fun a b => decide (a ≤ b)) 0).2.1.isEmpty
      = false := by
    rw [List.mergeSort_singleton]
    rfl
  exact ⟨hidx, hne, hsne, global_shuffle_pairs (cvDetect [⟨0, 0, 60, 60⟩])
    (fun x => x) (fun k => k) 0 (fun _ => [some (7 : Nat)]) ["a"]
    (List.range 200) hidx hne hsne⟩

end FaceRec
